import Mathlib

/-!
# ssl-check

A shallow embedding of `ssl.go` (`lookupIPWithTimeout`, `SSLService.Check`,
`formatDuration`) and of the day count written by `sslCheckHandler` in `main.go`.

* Everything the network and the clock do is an explicit input: the outcome of the
  resolution race, and for every resolved address the outcome of `tls.DialWithDialer`
  together with the readings `time.Now()` returns while that address is handled.
* `Check` is a state-passing loop that also records the trace of its effects
  (dial, connection opened, log lines, close).
* `float64` arithmetic is modelled exactly: a finite `float64` is an integer number of
  units of `2^-1074`, and every operation rounds to nearest, ties to even.
-/

namespace SSLCheck

/-! ## Durations and instants -/

/-- A `time.Duration`: a signed 64-bit count of nanoseconds. -/
abbrev Duration := Int

/-- A `time.Time` wall-clock instant, in nanoseconds from a fixed epoch. -/
abbrev Time := Int

def Second : Duration := 1000000000

def Hour : Duration := 3600000000000

def Day : Duration := 24 * Hour

def minDuration : Duration := -9223372036854775808

def maxDuration : Duration := 9223372036854775807

/-- The library function `Time.Sub`: the difference `t - u`, and the smallest or largest
`Duration` when the difference does not fit in one. -/
def Time.Sub (t u : Time) : Duration :=
  if t - u < minDuration then minDuration
  else if maxDuration < t - u then maxDuration
  else t - u

/-- The library function `Time.Add`. -/
def Time.Add (t : Time) (d : Duration) : Time := t + d

def lookupTimeout : Duration := 10 * Second

def connectionTimeout : Duration := 30 * Second

/-! ## Addresses, dial errors, certificates -/

/-- A `net.IP`: a slice of bytes. -/
abbrev IP := List Nat

/-- The library function `IP.To4`: the 4-byte form of an IPv4 address (given in 4 bytes or
as an IPv4-mapped 16-byte address), `none` (Go `nil`) for any other address. -/
def To4 (ip : IP) : Option IP :=
  if ip.length = 4 then some ip
  else if ip.length = 16 ∧ (ip.take 10).all (fun b => b == 0) ∧ ip.get? 10 = some 255
      ∧ ip.get? 11 = some 255 then some (ip.drop 12)
  else none

/-- The errno `syscall.EHOSTUNREACH` (value on Linux). -/
def EHOSTUNREACH : Nat := 113

/-- The errno `syscall.ECONNREFUSED` (value on Linux). -/
def ECONNREFUSED : Nat := 111

/-- The dynamic type and content of the `Err` field of a `*net.OpError`: either an
`*os.SyscallError` carrying an errno, or a value of any other type (a timeout error, a
deadline error, a DNS error, nil). -/
inductive Cause where
  | SyscallError (Err : Nat)
  | other
  deriving DecidableEq, Repr

/-- The error returned by `tls.DialWithDialer`, by dynamic type: a `*net.OpError` or anything
else (certificate verification errors, TLS alerts, ...). -/
inductive DialError where
  | OpError (Err : Cause)
  | other
  deriving DecidableEq, Repr

/-- The fields of an `x509.Certificate` that `Check` reads. -/
structure Certificate where
  Signature : List Nat
  IsCA : Bool
  NotAfter : Time
  CommonName : String
  deriving DecidableEq, Repr

/-- One resolved address together with what the environment does while `Check` handles it:
the result of `tls.DialWithDialer` (on success, the `VerifiedChains` of the connection state)
and the successive readings of `time.Now()` during this iteration of the loop. -/
structure Candidate where
  ip : IP
  dial : Except DialError (List (List Certificate))
  now : Nat → Time

/-- The outcome of the race in `lookupIPWithTimeout` between `net.LookupIP` and the timer. -/
inductive Resolution where
  | answered (ips : List Candidate)
  | failed
  | timedOut

/-! ## Traces -/

/-- The observable effects of one call of `Check`. -/
inductive Event where
  | logTimeout (host : String)
  | dial (ip : IP) (deadline : Time)
  | connected (ip : IP)
  | logUnreachable (ip : IP)
  | logError (ip : IP) (err : DialError)
  | logCA (ip : IP) (commonName : String)
  | logValid (ip : IP) (commonName : String) (notAfter : Time) (remaining : Duration)
  | close (ip : IP)
  deriving DecidableEq, Repr

/-- How a call ends: it returns a duration, it panics, or the process exits (`log.Fatal`). -/
inductive Outcome where
  | returned (remainingValidity : Duration)
  | panicked
  | exited
  deriving DecidableEq, Repr

structure Run where
  outcome : Outcome
  trace : List Event
  deriving DecidableEq, Repr

/-! ## `lookupIPWithTimeout` -/

/-- The library function `net.LookupIP`, on the address records the resolver finds for the
host: the records, or an error (`none`, the `no such host` error) when the name has none. -/
def LookupIP (records : List Candidate) : Option (List Candidate) :=
  match records with
  | [] => none
  | ip :: ips => some (ip :: ips)

/-- The race of lines 66-78, from what `net.LookupIP` returns in the goroutine (`none` for
an error, of any kind) and from which side is ready first: the timer; or the goroutine, which
on an error calls `log.Fatal` and otherwise sends the addresses on the channel. -/
def raceOf (lookup : Option (List Candidate)) (timerFirst : Bool) : Resolution :=
  if timerFirst then Resolution.timedOut
  else
    match lookup with
    | none => Resolution.failed
    | some ips => Resolution.answered ips

/-- The function `lookupIPWithTimeout`: the addresses when the lookup answers first, the
empty slice (after a log line) when the timer fires first; `none` when the lookup fails,
where `log.Fatal` ends the process. The second component is what was logged. Which of the
two sides of the `select` wins is the input `race`; the timer itself is not modelled. -/
def lookupIPWithTimeout (host : String) (_timeout : Duration) (race : Resolution) :
    Option (List Candidate) × List Event :=
  match race with
  | Resolution.answered ips => (some ips, [])
  | Resolution.failed => (none, [])
  | Resolution.timedOut => (some [], [Event.logTimeout host])

/-! ## `Check` -/

/-- The variables of the chain walk of one connection. -/
structure WalkState where
  checkedCerts : List (List Nat)
  remainingValidity : Duration
  reads : Nat
  trace : List Event

/-- The body of the inner loop of `Check` (lines 111-121) for one certificate. -/
def walkCert (c : Candidate) (s : WalkState) (cert : Certificate) : WalkState :=
  if cert.Signature ∈ s.checkedCerts then s
  else if cert.IsCA then
    { s with
      checkedCerts := cert.Signature :: s.checkedCerts
      trace := s.trace ++ [Event.logCA c.ip cert.CommonName] }
  else
    { checkedCerts := cert.Signature :: s.checkedCerts
      remainingValidity := Time.Sub cert.NotAfter (c.now s.reads)
      reads := s.reads + 1
      trace := s.trace ++ [Event.logValid c.ip cert.CommonName cert.NotAfter
        (Time.Sub cert.NotAfter (c.now s.reads))] }

/-- The loop over the certificates of one chain. -/
def walkChain (c : Candidate) (s : WalkState) (chain : List Certificate) : WalkState :=
  chain.foldl (walkCert c) s

/-- The loop over the verified chains of one connection. -/
def walkChains (c : Candidate) (s : WalkState) (chains : List (List Certificate)) : WalkState :=
  chains.foldl (walkChain c) s

/-- Whether the error branch of `Check` panics: the address is not IPv4, the error is a
`*net.OpError`, and the unchecked type assertion `.Err.(*os.SyscallError)` of line 96 is
applied to a value of another type. -/
def dialPanics (c : Candidate) : Bool :=
  match c.dial with
  | Except.error (DialError.OpError Cause.other) => To4 c.ip == none
  | _ => false

/-- The loop of `Check` over the resolved addresses (lines 85-125), with the named result
`remainingValidity` and the trace so far as accumulators. -/
def checkLoop : List Candidate → Duration → List Event → Run
  | [], remainingValidity, tr => ⟨Outcome.returned remainingValidity, tr⟩
  | c :: rest, remainingValidity, tr =>
    let deadline := Time.Add (c.now 0) (connectionTimeout + 5 * Second)
    let tr := tr ++ [Event.dial c.ip deadline]
    match c.dial with
    | Except.error err =>
      if To4 c.ip = none then
        match err with
        | DialError.OpError (Cause.SyscallError errno) =>
          if errno = EHOSTUNREACH then
            checkLoop rest remainingValidity (tr ++ [Event.logUnreachable c.ip])
          else
            checkLoop rest remainingValidity (tr ++ [Event.logError c.ip err])
        | DialError.OpError Cause.other => ⟨Outcome.panicked, tr⟩
        | DialError.other => checkLoop rest remainingValidity (tr ++ [Event.logError c.ip err])
      else
        checkLoop rest remainingValidity (tr ++ [Event.logError c.ip err])
    | Except.ok chains =>
      let s := walkChains c ⟨[], remainingValidity, 1, tr ++ [Event.connected c.ip]⟩ chains
      checkLoop rest s.remainingValidity (s.trace ++ [Event.close c.ip])

/-- The method `SSLService.Check`. -/
def Check (host : String) (race : Resolution) : Run :=
  match lookupIPWithTimeout host lookupTimeout race with
  | (none, tr) => ⟨Outcome.exited, tr⟩
  | (some ips, tr) => checkLoop ips 0 tr

/-! ## The specification of `Check`, in the words of the spec -/

/-- The certificates of a sequence that remain when every certificate whose signature equals
that of an earlier one is removed. -/
def dedupBySignature : List Certificate → List Certificate
  | [] => []
  | c :: cs => c :: (dedupBySignature cs).filter (fun d => decide (d.Signature ≠ c.Signature))

/-- The certificates of one connection that are processed: over every chain in order and
every certificate in order, those whose signature was not seen earlier in the connection and
that are not CA certificates. -/
def processedCerts (chains : List (List Certificate)) : List Certificate :=
  (dedupBySignature chains.flatten).filter (fun cert => !cert.IsCA)

/-- The remaining validities computed for one address, in order: none when the dial failed,
otherwise `NotAfter` minus the current time for each processed certificate (reading 0 of the
clock is the one taken for the dialer deadline, reading `k` the one taken for the `k`-th
processed certificate). -/
def observations (c : Candidate) : List Duration :=
  match c.dial with
  | Except.error _ => []
  | Except.ok chains =>
    ((processedCerts chains).enumFrom 1).map (fun p => Time.Sub p.2.NotAfter (c.now p.1))

/-- The certificates of `l` the chain walk handles (does not skip as already checked) when
the signatures in `seen` were met before. -/
def freshFrom (seen : List (List Nat)) : List Certificate → List Certificate
  | [] => []
  | x :: xs =>
    if x.Signature ∈ seen then freshFrom seen xs
    else x :: freshFrom (x.Signature :: seen) xs

/-- Last processed wins: the last observation over all addresses in order, zero if none. -/
def lastProcessed (ips : List Candidate) : Duration :=
  ((ips.flatMap observations).getLast?).getD 0

/-- The soonest-expiring observation (the policy `Check` does NOT implement). -/
def soonestExpiring (ips : List Candidate) : Duration :=
  ((ips.flatMap observations).min?).getD 0

/-- Rewrites the `NotAfter` of every CA certificate of an address with `f`. -/
def retimeCA (f : Certificate → Time) (c : Candidate) : Candidate :=
  { c with
    dial := match c.dial with
      | Except.error e => Except.error e
      | Except.ok chains => Except.ok (chains.map (fun chain =>
          chain.map (fun cert => if cert.IsCA then { cert with NotAfter := f cert } else cert))) }

/-! ## The connection discipline read off a trace -/

/-- The connection state of `Check` between two events. -/
inductive Conn where
  | idle
  | dialing (ip : IP)
  | opened (ip : IP)
  deriving DecidableEq, Repr

/-- One step of the discipline: a dial starts only when no connection is open or pending, a
connection is opened only by the pending dial, certificate log lines occur only on the open
connection, and only the open connection is closed. -/
def Conn.step : Conn → Event → Option Conn
  | s, Event.logTimeout _ => some s
  | Conn.idle, Event.dial ip _ => some (Conn.dialing ip)
  | Conn.dialing ip, Event.connected ip2 => if ip = ip2 then some (Conn.opened ip) else none
  | Conn.dialing ip, Event.logUnreachable ip2 => if ip = ip2 then some Conn.idle else none
  | Conn.dialing ip, Event.logError ip2 _ => if ip = ip2 then some Conn.idle else none
  | Conn.opened ip, Event.logCA ip2 _ => if ip = ip2 then some (Conn.opened ip) else none
  | Conn.opened ip, Event.logValid ip2 _ _ _ => if ip = ip2 then some (Conn.opened ip) else none
  | Conn.opened ip, Event.close ip2 => if ip = ip2 then some Conn.idle else none
  | _, _ => none

/-- Runs the discipline over a trace; `none` when an event violates it. -/
def scanFrom : Conn → List Event → Option Conn
  | s, [] => some s
  | s, e :: es =>
    match s.step e with
    | none => none
    | some s2 => scanFrom s2 es

/-- The addresses dialed in a trace, in order. -/
def dialed (tr : List Event) : List IP :=
  tr.filterMap (fun e => match e with
    | Event.dial ip _ => some ip
    | _ => none)

/-! ## `float64` -/

/-- A finite `float64`, as an integer number of units of `2^-1074` (every finite `float64`
is such a multiple). Infinities and NaN are not represented; they cannot arise below, where
all magnitudes stay under `2^63 * 60` and divisors are non-zero constants. -/
abbrev F64 := Int

namespace F64

/-- The number of units in `1.0`. -/
def unit : Nat := 1 <<< 1074

def log2Aux : Nat → Nat → Nat
  | 0, _ => 0
  | fuel + 1, n => if n < 2 then 0 else log2Aux fuel (n / 2) + 1

/-- Floor of the binary logarithm (`0` for `0`). -/
def ilog2 (n : Nat) : Nat := log2Aux n n

/-- The integer nearest to `p / q`, ties to the even one. -/
def rne (p q : Nat) : Nat :=
  if 2 * (p % q) < q then p / q
  else if q < 2 * (p % q) then p / q + 1
  else if (p / q) % 2 = 0 then p / q else p / q + 1

/-- The `float64` (in units) nearest to `p / q` units, ties to even: a value with a
`b`-bit integer part in units keeps 53 significant bits, so it is rounded to a multiple of
`2^(b - 53)` units (of one unit for subnormal values). -/
def roundNat (p q : Nat) : Nat :=
  rne p (q <<< (ilog2 (p / q) - 52)) <<< (ilog2 (p / q) - 52)

def round (p : Int) (q : Nat) : F64 :=
  if p < 0 then -(roundNat p.natAbs q : Int) else (roundNat p.natAbs q : Int)

/-- The conversion `float64(i)` of an integer. -/
def ofInt (i : Int) : F64 := round (i * unit) 1

def add (a b : F64) : F64 := round (a + b) 1

def mul (a b : F64) : F64 := round (a * b) unit

def div (a b : F64) : F64 :=
  if b < 0 then round (-(a * unit)) b.natAbs else round (a * unit) b.natAbs

/-- The library function `math.Floor`. -/
def Floor (a : F64) : F64 := a / unit * unit

/-- The library function `math.Mod` (exact, sign of the dividend). -/
def Mod (a b : F64) : F64 := Int.tmod a b

/-- The library function `math.Modf`: integer part and fractional part, both exact and of the
sign of the argument. -/
def Modf (a : F64) : F64 × F64 := (Int.tdiv a unit * unit, Int.tmod a unit)

/-- The text `fmt.Sprintf` produces for the verb `%.f`: the exact value rounded to the nearest
integer, ties to even, in decimal. -/
def fmt0 (a : F64) : String :=
  if a < 0 then "-" ++ toString (rne a.natAbs unit) else toString (rne a.natAbs unit)

end F64

/-- The library method `Duration.Hours`. -/
def Hours (d : Duration) : F64 :=
  F64.add (F64.ofInt (Int.tdiv d Hour))
    (F64.div (F64.ofInt (Int.tmod d Hour)) (F64.ofInt (60 * 60 * 1000000000)))

/-! ## `formatDuration` and the handler -/

/-- The function `formatDuration`. -/
def formatDuration (d : Duration) : String :=
  let days := F64.Floor (F64.div (Hours d) (F64.ofInt 24))
  let hoursRemaining := F64.Mod (Hours d) (F64.ofInt 24)
  let daysPart := if days > 0 then F64.fmt0 days ++ "d" else ""
  let hours := (F64.Modf hoursRemaining).1
  let hoursRemaining := (F64.Modf hoursRemaining).2
  let minutesRemaining := F64.mul hoursRemaining (F64.ofInt 60)
  let hoursPart := if hours > 0 then F64.fmt0 hours ++ "h" else ""
  let minutesPart := if minutesRemaining > 0 then F64.fmt0 minutesRemaining ++ "m" else ""
  let minutesRemaining := (F64.Modf minutesRemaining).2
  let secondsRemaining := F64.mul minutesRemaining (F64.ofInt 60)
  let secondsPart := if secondsRemaining > 0 then F64.fmt0 secondsRemaining ++ "s" else ""
  daysPart ++ " " ++ hoursPart ++ " " ++ minutesPart ++ " " ++ secondsPart

/-- The body `sslCheckHandler` writes for the value `validez` returned by `Check`: the text
of `math.Floor(validez.Hours()/24)` under `%.f`, and a newline. -/
def daysBody (validez : Duration) : String :=
  F64.fmt0 (F64.Floor (F64.div (Hours validez) (F64.ofInt 24))) ++ "\n"

/-- The function `sslCheckHandler`, on the host taken from the request: the body written,
`none` when `Check` does not return. -/
def sslCheckHandler (host : String) (race : Resolution) : Option String :=
  match (Check host race).outcome with
  | Outcome.returned validez => some (daysBody validez)
  | _ => none

/-! ## Concrete inputs -/

def exampleHost : String := "example.org"

/-- The instant all example clocks show. -/
def t0 : Time := 1700000000 * Second

def frozen : Nat → Time := fun _ => t0

/-- A clock advancing by one millisecond per reading. -/
def ticking : Nat → Time := fun k => t0 + k * 1000000

def ipv4A : IP := [192, 0, 2, 1]

def ipv4B : IP := [192, 0, 2, 2]

def ipv6A : IP := [32, 1, 13, 184, 0, 0, 0, 0, 0, 0, 0, 0, 0, 0, 0, 1]

def leaf (sig : Nat) (notAfter : Time) : Certificate :=
  { Signature := [sig], IsCA := false, NotAfter := notAfter, CommonName := "leaf" }

def ca (sig : Nat) (notAfter : Time) : Certificate :=
  { Signature := [sig], IsCA := true, NotAfter := notAfter, CommonName := "ca" }

/-- Address A: serves a leaf expiring in 10 days. -/
def candA : Candidate :=
  { ip := ipv4A, dial := Except.ok [[leaf 1 (t0 + 10 * Day), ca 9 (t0 + 3650 * Day)]],
    now := frozen }

/-- Address B: serves a leaf expiring in 100 days. -/
def candB : Candidate :=
  { ip := ipv4B, dial := Except.ok [[leaf 2 (t0 + 100 * Day), ca 9 (t0 + 3650 * Day)]],
    now := frozen }

/-- A single address serving a single leaf whose `NotAfter` is 45 days after the reading the
clock gives when the certificate is processed. -/
def cand45 : Candidate :=
  { ip := ipv4A, dial := Except.ok [[leaf 1 (ticking 1 + 45 * Day)]], now := ticking }

/-- An IPv6 address whose dial times out: a `*net.OpError` whose `Err` is not an
`*os.SyscallError`. -/
def candV6Timeout : Candidate :=
  { ip := ipv6A, dial := Except.error (DialError.OpError Cause.other), now := frozen }

/-- An IPv6 address without a route: `EHOSTUNREACH`. -/
def candV6Unreachable : Candidate :=
  { ip := ipv6A, dial := Except.error (DialError.OpError (Cause.SyscallError EHOSTUNREACH)),
    now := ticking }

/-- An IPv4 address refusing the connection. -/
def candV4Refused : Candidate :=
  { ip := ipv4B, dial := Except.error (DialError.OpError (Cause.SyscallError ECONNREFUSED)),
    now := frozen }

/-- An address presenting two chains to the same leaf through different intermediates. -/
def candTwoChains : Candidate :=
  { ip := ipv4A,
    dial := Except.ok [[leaf 1 (t0 + 30 * Day), ca 8 (t0 + 900 * Day), ca 9 (t0 + 3650 * Day)],
      [leaf 1 (t0 + 30 * Day), ca 7 (t0 + 800 * Day)]],
    now := ticking }

/-- An address whose chains hold CA certificates only. -/
def candOnlyCA : Candidate :=
  { ip := ipv4A, dial := Except.ok [[ca 8 (t0 + 900 * Day), ca 9 (t0 + 3650 * Day)]],
    now := frozen }

end SSLCheck

namespace SSLCheck

set_option maxRecDepth 100000

/-! ## Lists: the last element with a default -/

theorem getLast?_getD_cons (d r : Duration) (ds : List Duration) :
    ((d :: ds).getLast?).getD r = (ds.getLast?).getD d := by
  cases ds with
  | nil => simp
  | cons e es => simp [List.getLast?_cons]

theorem getLast?_getD_append (a b : List Duration) (r : Duration) :
    ((a ++ b).getLast?).getD r = (b.getLast?).getD ((a.getLast?).getD r) := by
  rw [List.getLast?_append]
  cases b.getLast? <;> simp

/-! ## The chain walk against the specification -/

theorem walkChains_eq_foldl (c : Candidate) (s : WalkState) (chains : List (List Certificate)) :
    walkChains c s chains = chains.flatten.foldl (walkCert c) s := by
  unfold walkChains
  rw [List.foldl_flatten]
  rfl

theorem freshFrom_eq_filter (seen : List (List Nat)) (l : List Certificate) :
    freshFrom seen l = (dedupBySignature l).filter (fun d => decide (d.Signature ∉ seen)) := by
  induction l generalizing seen with
  | nil => simp [freshFrom, dedupBySignature]
  | cons x xs ih =>
    by_cases hx : x.Signature ∈ seen
    · simp only [freshFrom, hx, if_true, dedupBySignature, List.filter_cons, not_true_eq_false,
        decide_False, Bool.false_eq_true, if_false, List.filter_filter]
      rw [ih]
      apply List.filter_congr
      intro d _
      by_cases hd : d.Signature ∈ seen
      · simp [hd]
      · have : d.Signature ≠ x.Signature := fun h => hd (h ▸ hx)
        simp [hd, this]
    · simp only [freshFrom, hx, if_false, dedupBySignature, List.filter_cons, not_false_eq_true,
        decide_True, if_true, List.filter_filter]
      rw [ih]
      congr 1
      apply List.filter_congr
      intro d _
      by_cases hd : d.Signature = x.Signature
      · simp [hd]
      · simp [hd]

theorem freshFrom_nil (l : List Certificate) : freshFrom [] l = dedupBySignature l := by
  rw [freshFrom_eq_filter]
  simp

/-- The value of `remainingValidity` after walking `l`: the last observation made on the
certificates handled and not CA, or the previous value when there is none. -/
theorem foldl_walkCert_remainingValidity (c : Candidate) (l : List Certificate) (s : WalkState) :
    (l.foldl (walkCert c) s).remainingValidity =
      (((((freshFrom s.checkedCerts l).filter (fun cert => !cert.IsCA)).enumFrom s.reads).map
        (fun p => Time.Sub p.2.NotAfter (c.now p.1))).getLast?).getD s.remainingValidity := by
  induction l generalizing s with
  | nil => simp [freshFrom]
  | cons x xs ih =>
    rw [List.foldl_cons, ih]
    by_cases hx : x.Signature ∈ s.checkedCerts
    · simp [walkCert, freshFrom, hx]
    · by_cases hca : x.IsCA = true
      · simp [walkCert, freshFrom, hx, hca]
      · simp only [Bool.not_eq_true] at hca
        simp only [walkCert, freshFrom, hx, hca, if_false, Bool.false_eq_true, List.filter_cons,
          Bool.not_false, if_true, List.enumFrom_cons, List.map_cons]
        rw [getLast?_getD_cons]

theorem walkChains_remainingValidity (c : Candidate) (chains : List (List Certificate))
    (rv : Duration) (tr : List Event) :
    (walkChains c ⟨[], rv, 1, tr⟩ chains).remainingValidity =
      ((((processedCerts chains).enumFrom 1).map
        (fun p => Time.Sub p.2.NotAfter (c.now p.1))).getLast?).getD rv := by
  rw [walkChains_eq_foldl, foldl_walkCert_remainingValidity]
  simp only [freshFrom_nil]
  rfl

/-- The outcome of the loop of `Check`: a panic as soon as one address panics, otherwise the
last observation over all addresses, or the initial value when there is none. -/
theorem checkLoop_outcome (ips : List Candidate) (rv : Duration) (tr : List Event) :
    (checkLoop ips rv tr).outcome =
      if ips.any dialPanics then Outcome.panicked
      else Outcome.returned (((ips.flatMap observations).getLast?).getD rv) := by
  induction ips generalizing rv tr with
  | nil => simp [checkLoop]
  | cons c rest ih =>
    rw [List.flatMap_cons, getLast?_getD_append, List.any_cons]
    unfold checkLoop
    cases hd : c.dial with
    | error err =>
      have hobs : observations c = [] := by simp [observations, hd]
      by_cases h4 : To4 c.ip = none
      · cases err with
        | OpError cause =>
          cases cause with
          | SyscallError errno =>
            have hp : dialPanics c = false := by simp [dialPanics, hd]
            by_cases he : errno = EHOSTUNREACH <;> simp [h4, he, ih, hobs, hp]
          | other =>
            have hp : dialPanics c = true := by simp [dialPanics, hd, h4]
            simp [h4, hp]
        | other =>
          have hp : dialPanics c = false := by simp [dialPanics, hd]
          simp [h4, ih, hobs, hp]
      · have hp : dialPanics c = false := by
          cases err with
          | OpError cause => cases cause <;> simp [dialPanics, hd, h4]
          | other => simp [dialPanics, hd]
        simp [h4, ih, hobs, hp]
    | ok chains =>
      have hp : dialPanics c = false := by simp [dialPanics, hd]
      have hobs : observations c = ((processedCerts chains).enumFrom 1).map
          (fun p => Time.Sub p.2.NotAfter (c.now p.1)) := by simp [observations, hd]
      simp only [ih, hp, Bool.false_or, walkChains_remainingValidity, hobs]

/-! ## Helper lemmas on the walk -/

theorem mem_of_mem_dedupBySignature (l : List Certificate) (x : Certificate)
    (h : x ∈ dedupBySignature l) : x ∈ l := by
  induction l with
  | nil => simp [dedupBySignature] at h
  | cons y ys ih =>
    simp only [dedupBySignature, List.mem_cons, List.mem_filter] at h
    rcases h with h | h
    · exact h ▸ List.mem_cons_self _ _
    · exact List.mem_cons_of_mem _ (ih h.1)

theorem dedupBySignature_map (g : Certificate → Certificate)
    (hg : ∀ x, (g x).Signature = x.Signature) (l : List Certificate) :
    dedupBySignature (l.map g) = (dedupBySignature l).map g := by
  induction l with
  | nil => simp [dedupBySignature]
  | cons y ys ih =>
    simp only [List.map_cons, dedupBySignature, ih, List.filter_map]
    congr 2
    apply List.filter_congr
    intro d _
    simp [hg]

/-- The walk of a sequence is the walk of the certificates it does not skip. -/
theorem foldl_walkCert_freshFrom (c : Candidate) (l : List Certificate) (s : WalkState) :
    l.foldl (walkCert c) s = (freshFrom s.checkedCerts l).foldl (walkCert c) s := by
  induction l generalizing s with
  | nil => simp [freshFrom]
  | cons x xs ih =>
    by_cases hx : x.Signature ∈ s.checkedCerts
    · have hs : walkCert c s x = s := by simp [walkCert, hx]
      simp only [List.foldl_cons, freshFrom, hx, if_true, hs]
      exact ih s
    · have hc : (walkCert c s x).checkedCerts = x.Signature :: s.checkedCerts := by
        by_cases hca : x.IsCA = true <;> simp [walkCert, hx, hca]
      simp only [List.foldl_cons, freshFrom, hx, if_false]
      rw [ih, hc]

theorem walkCert_checkedCerts_subset (c : Candidate) (s : WalkState) (x : Certificate)
    (sig : List Nat) (h : sig ∈ s.checkedCerts) : sig ∈ (walkCert c s x).checkedCerts := by
  by_cases hx : x.Signature ∈ s.checkedCerts
  · simpa [walkCert, hx] using h
  · by_cases hca : x.IsCA = true <;> simp [walkCert, hx, hca, h]

theorem walkCert_checkedCerts_self (c : Candidate) (s : WalkState) (x : Certificate) :
    x.Signature ∈ (walkCert c s x).checkedCerts := by
  by_cases hx : x.Signature ∈ s.checkedCerts
  · simp [walkCert, hx]
  · by_cases hca : x.IsCA = true <;> simp [walkCert, hx, hca]

theorem foldl_walkCert_checkedCerts_subset (c : Candidate) (l : List Certificate) (s : WalkState)
    (sig : List Nat) (h : sig ∈ s.checkedCerts) : sig ∈ (l.foldl (walkCert c) s).checkedCerts := by
  induction l generalizing s with
  | nil => simpa using h
  | cons x xs ih =>
    rw [List.foldl_cons]
    exact ih _ (walkCert_checkedCerts_subset c s x sig h)

theorem foldl_walkCert_checked (c : Candidate) (l : List Certificate) (s : WalkState)
    (x : Certificate) (h : x ∈ l) : x.Signature ∈ (l.foldl (walkCert c) s).checkedCerts := by
  induction l generalizing s with
  | nil => simp at h
  | cons y ys ih =>
    rw [List.foldl_cons]
    rcases List.mem_cons.1 h with h | h
    · subst h
      exact foldl_walkCert_checkedCerts_subset c ys _ _ (walkCert_checkedCerts_self c s x)
    · exact ih _ h

theorem foldl_walkCert_all_checked (c : Candidate) (l : List Certificate) (s : WalkState)
    (h : ∀ x ∈ l, x.Signature ∈ s.checkedCerts) : l.foldl (walkCert c) s = s := by
  induction l with
  | nil => rfl
  | cons y ys ih =>
    have hy : walkCert c s y = s := by simp [walkCert, h y (List.mem_cons_self _ _)]
    rw [List.foldl_cons, hy]
    exact ih (fun x hx => h x (List.mem_cons_of_mem _ hx))

/-! ## Helper lemmas on traces -/

theorem scanFrom_append (s : Conn) (a b : List Event) :
    scanFrom s (a ++ b) = (scanFrom s a).bind (fun s2 => scanFrom s2 b) := by
  induction a generalizing s with
  | nil => simp [scanFrom]
  | cons e es ih =>
    simp only [List.cons_append, scanFrom]
    cases s.step e with
    | none => simp
    | some s2 => simpa using ih s2

theorem walkCert_scan (c : Candidate) (s : WalkState) (x : Certificate) (s0 : Conn)
    (h : scanFrom s0 s.trace = some (Conn.opened c.ip)) :
    scanFrom s0 (walkCert c s x).trace = some (Conn.opened c.ip) := by
  by_cases hx : x.Signature ∈ s.checkedCerts
  · simpa [walkCert, hx] using h
  · by_cases hca : x.IsCA = true <;>
      simp [walkCert, hx, hca, scanFrom_append, h, scanFrom, Conn.step]

theorem foldl_walkCert_scan (c : Candidate) (l : List Certificate) (s : WalkState) (s0 : Conn)
    (h : scanFrom s0 s.trace = some (Conn.opened c.ip)) :
    scanFrom s0 (l.foldl (walkCert c) s).trace = some (Conn.opened c.ip) := by
  induction l generalizing s with
  | nil => simpa using h
  | cons x xs ih =>
    rw [List.foldl_cons]
    exact ih _ (walkCert_scan c s x s0 h)

theorem walkCert_dialed (c : Candidate) (s : WalkState) (x : Certificate) :
    dialed (walkCert c s x).trace = dialed s.trace := by
  by_cases hx : x.Signature ∈ s.checkedCerts
  · simp [walkCert, hx]
  · by_cases hca : x.IsCA = true <;> simp [walkCert, hx, hca, dialed, List.filterMap_append]

theorem foldl_walkCert_dialed (c : Candidate) (l : List Certificate) (s : WalkState) :
    dialed (l.foldl (walkCert c) s).trace = dialed s.trace := by
  induction l generalizing s with
  | nil => rfl
  | cons x xs ih => rw [List.foldl_cons, ih, walkCert_dialed]

/-- The discipline holds along the loop of `Check`: started with no connection open, the
trace ends with none open and the dials are those of the addresses in order when the loop
returns, and ends in a failed dial when it panics. -/
theorem checkLoop_trace (ips : List Candidate) (rv : Duration) (tr : List Event)
    (h : scanFrom Conn.idle tr = some Conn.idle) :
    ∃ s, scanFrom Conn.idle (checkLoop ips rv tr).trace = some s ∧
      match (checkLoop ips rv tr).outcome with
      | Outcome.returned _ =>
        s = Conn.idle ∧ dialed (checkLoop ips rv tr).trace = dialed tr ++ ips.map (fun c => c.ip)
      | Outcome.panicked => ∃ ip, s = Conn.dialing ip
      | Outcome.exited => False := by
  induction ips generalizing rv tr with
  | nil => exact ⟨Conn.idle, by simpa [checkLoop] using h, by simp [checkLoop]⟩
  | cons c rest ih =>
    have hdial : ∀ dl, scanFrom Conn.idle (tr ++ [Event.dial c.ip dl]) =
        some (Conn.dialing c.ip) := by
      intro dl
      simp [scanFrom_append, h, scanFrom, Conn.step]
    have hskip : ∀ dl e, Conn.step (Conn.dialing c.ip) e = some Conn.idle →
        dialed [e] = [] → ∀ rv2,
        ∃ s, scanFrom Conn.idle (checkLoop rest rv2 (tr ++ [Event.dial c.ip dl] ++ [e])).trace
            = some s ∧
          match (checkLoop rest rv2 (tr ++ [Event.dial c.ip dl] ++ [e])).outcome with
          | Outcome.returned _ =>
            s = Conn.idle ∧
              dialed (checkLoop rest rv2 (tr ++ [Event.dial c.ip dl] ++ [e])).trace
                = dialed tr ++ (c :: rest).map (fun c => c.ip)
          | Outcome.panicked => ∃ ip, s = Conn.dialing ip
          | Outcome.exited => False := by
      intro dl e he hde rv2
      have h2 : scanFrom Conn.idle (tr ++ [Event.dial c.ip dl] ++ [e]) = some Conn.idle := by
        rw [scanFrom_append, hdial]
        simp [scanFrom, he]
      obtain ⟨s, hs, hm⟩ := ih rv2 _ h2
      refine ⟨s, hs, ?_⟩
      have hd : dialed (tr ++ [Event.dial c.ip dl] ++ [e]) = dialed tr ++ [c.ip] := by
        have hde2 : List.filterMap (fun e => match e with
            | Event.dial ip _ => some ip
            | _ => none) [e] = [] := hde
        simp only [dialed, List.filterMap_append, hde2]
        simp
      rw [hd] at hm
      simpa using hm
    unfold checkLoop
    cases hd : c.dial with
    | error err =>
      by_cases h4 : To4 c.ip = none
      · cases err with
        | OpError cause =>
          cases cause with
          | SyscallError errno =>
            by_cases he : errno = EHOSTUNREACH
            · simpa [h4, he] using hskip _ (Event.logUnreachable c.ip)
                (by simp [Conn.step]) (by simp [dialed]) rv
            · simpa [h4, he] using hskip _ (Event.logError c.ip _)
                (by simp [Conn.step]) (by simp [dialed]) rv
          | other =>
            exact ⟨Conn.dialing c.ip, by simpa [h4] using hdial _, by simp [h4]⟩
        | other =>
          simpa [h4] using hskip _ (Event.logError c.ip _)
            (by simp [Conn.step]) (by simp [dialed]) rv
      · simpa [h4] using hskip _ (Event.logError c.ip _)
          (by simp [Conn.step]) (by simp [dialed]) rv
    | ok chains =>
      simp only
      generalize hdl : Time.Add (c.now 0) (connectionTimeout + 5 * Second) = dl
      have hopen : scanFrom Conn.idle (tr ++ [Event.dial c.ip dl] ++ [Event.connected c.ip])
          = some (Conn.opened c.ip) := by
        rw [scanFrom_append, hdial]
        simp [scanFrom, Conn.step]
      have hw := foldl_walkCert_scan c chains.flatten
        ⟨[], rv, 1, tr ++ [Event.dial c.ip dl] ++ [Event.connected c.ip]⟩ Conn.idle hopen
      have hwd := foldl_walkCert_dialed c chains.flatten
        ⟨[], rv, 1, tr ++ [Event.dial c.ip dl] ++ [Event.connected c.ip]⟩
      rw [← walkChains_eq_foldl] at hw hwd
      have h2 : scanFrom Conn.idle
          ((walkChains c ⟨[], rv, 1, tr ++ [Event.dial c.ip dl] ++ [Event.connected c.ip]⟩
            chains).trace ++ [Event.close c.ip]) = some Conn.idle := by
        rw [scanFrom_append, hw]
        simp [scanFrom, Conn.step]
      obtain ⟨s, hs, hm⟩ := ih _ _ h2
      refine ⟨s, hs, ?_⟩
      have hd2 : dialed ((walkChains c
          ⟨[], rv, 1, tr ++ [Event.dial c.ip dl] ++ [Event.connected c.ip]⟩ chains).trace
            ++ [Event.close c.ip]) = dialed tr ++ [c.ip] := by
        have : dialed ((walkChains c
            ⟨[], rv, 1, tr ++ [Event.dial c.ip dl] ++ [Event.connected c.ip]⟩ chains).trace
              ++ [Event.close c.ip]) = dialed (walkChains c
            ⟨[], rv, 1, tr ++ [Event.dial c.ip dl] ++ [Event.connected c.ip]⟩ chains).trace := by
          simp [dialed, List.filterMap_append]
        rw [this, hwd]
        simp [dialed, List.filterMap_append]
      rw [hd2] at hm
      simpa using hm

/-! ## Helper lemmas on the outcome of `Check` -/

theorem Check_answered_outcome (host : String) (ips : List Candidate) :
    (Check host (Resolution.answered ips)).outcome =
      if ips.any dialPanics then Outcome.panicked else Outcome.returned (lastProcessed ips) := by
  simp only [Check, lookupIPWithTimeout, checkLoop_outcome, lastProcessed]

theorem any_dialPanics_eq_false (ips : List Candidate) (h : ∀ c ∈ ips, dialPanics c = false) :
    ips.any dialPanics = false := by
  simpa [List.any_eq_false] using h

theorem retimeCA_dialPanics (f : Certificate → Time) (c : Candidate) :
    dialPanics (retimeCA f c) = dialPanics c := by
  unfold dialPanics retimeCA
  cases c.dial <;> rfl

theorem retimeCA_processedCerts (f : Certificate → Time) (chains : List (List Certificate)) :
    processedCerts (chains.map (fun chain =>
      chain.map (fun cert => if cert.IsCA then { cert with NotAfter := f cert } else cert))) =
    processedCerts chains := by
  unfold processedCerts
  rw [← List.map_flatten, dedupBySignature_map _ (by intro x; by_cases h : x.IsCA = true <;> simp [h]),
    List.filter_map]
  have hp : ((fun cert : Certificate => !cert.IsCA) ∘
      (fun cert => if cert.IsCA then { cert with NotAfter := f cert } else cert)) =
      (fun cert : Certificate => !cert.IsCA) := by
    funext x
    by_cases h : x.IsCA = true <;> simp [h]
  rw [hp]
  conv_rhs => rw [← List.map_id (List.filter _ _)]
  apply List.map_congr_left
  intro x hx
  have hx2 : x.IsCA = false := by simpa using (List.mem_filter.1 hx).2
  simp [hx2]

theorem retimeCA_observations (f : Certificate → Time) (c : Candidate) :
    observations (retimeCA f c) = observations c := by
  unfold observations
  cases hd : c.dial with
  | error e => simp [retimeCA, hd]
  | ok chains => simp only [retimeCA, hd, retimeCA_processedCerts]

theorem checkLoop_skip_unreachable (a : Candidate) (post : List Candidate) (rv : Duration)
    (tr : List Event) (h4 : To4 a.ip = none)
    (hd : a.dial = Except.error (DialError.OpError (Cause.SyscallError EHOSTUNREACH))) :
    checkLoop (a :: post) rv tr = checkLoop post rv
      (tr ++ [Event.dial a.ip (Time.Add (a.now 0) (connectionTimeout + 5 * Second))]
        ++ [Event.logUnreachable a.ip]) := by
  rw [checkLoop]
  simp [hd, h4]

theorem walkChains_repeat (c : Candidate) (s : WalkState) (chains : List (List Certificate)) :
    walkChains c s (chains ++ chains) = walkChains c s chains := by
  rw [walkChains_eq_foldl, walkChains_eq_foldl, List.flatten_append, List.foldl_append]
  exact foldl_walkCert_all_checked c _ _ (fun x hx => foldl_walkCert_checked c _ s x hx)

theorem walkChains_congr (c1 c2 : Candidate) (hip : c1.ip = c2.ip) (hnow : c1.now = c2.now)
    (s : WalkState) (chains : List (List Certificate)) :
    walkChains c1 s chains = walkChains c2 s chains := by
  have h : walkCert c1 = walkCert c2 := by
    funext st x
    simp only [walkCert, hip, hnow]
  simp only [walkChains_eq_foldl, h]

/-- Replacing a suffix of the addresses by one on which the loop behaves the same does not
change the run. -/
theorem checkLoop_append_congr (pre l1 l2 : List Candidate)
    (h : ∀ rv tr, checkLoop l1 rv tr = checkLoop l2 rv tr) (rv : Duration) (tr : List Event) :
    checkLoop (pre ++ l1) rv tr = checkLoop (pre ++ l2) rv tr := by
  induction pre generalizing rv tr with
  | nil => exact h rv tr
  | cons p ps ih =>
    simp only [List.cons_append]
    rw [checkLoop, checkLoop]
    simp only [ih]

/-! ## `Check`: the claims -/

/-- C1: `Check` is last-processed-wins. On every list of resolved addresses none of whose
dials panics, `Check` returns `lastProcessed`: the last of the observations
`NotAfter.Sub(now)` made, over the successfully dialed addresses in order, on the
certificates that are first of their signature in their connection and not CA, and zero when
there is none; `Time.Sub` is the exact difference whenever that difference is a `Duration`.
With A (10 days) before B (100 days) the result is 100 days, which is not the soonest
expiry; a single leaf expiring 45 days after the reading of its processing gives 45 days
exactly, and the handler writes 45. -/
theorem Check_last_processed_wins :
    (∀ (host : String) (ips : List Candidate), (∀ c ∈ ips, dialPanics c = false) →
      (Check host (Resolution.answered ips)).outcome = Outcome.returned (lastProcessed ips)) ∧
    (∀ (host : String) (ips : List Candidate), (∀ c ∈ ips, dialPanics c = false) →
      ips.flatMap observations = [] →
      (Check host (Resolution.answered ips)).outcome = Outcome.returned 0) ∧
    (∀ t u : Time, minDuration ≤ t - u → t - u ≤ maxDuration → Time.Sub t u = t - u) ∧
    (Check exampleHost (Resolution.answered [candA, candB])).outcome
      = Outcome.returned (100 * Day) ∧
    soonestExpiring [candA, candB] = 10 * Day ∧
    (Check exampleHost (Resolution.answered [cand45])).outcome = Outcome.returned (45 * Day) ∧
    (45 * Day) / Day = 45 ∧
    sslCheckHandler exampleHost (Resolution.answered [cand45]) = some ("45\n") := by
  refine ⟨?_, ?_, ?_, by decide, by decide, by decide, by decide, by decide⟩
  · intro host ips h
    rw [Check_answered_outcome, any_dialPanics_eq_false ips h]
    simp
  · intro host ips h hobs
    rw [Check_answered_outcome, any_dialPanics_eq_false ips h]
    simp [lastProcessed, hobs]
  · intro t u h1 h2
    unfold Time.Sub
    rw [if_neg (not_lt.2 h1), if_neg (not_lt.2 h2)]

/-- C2 (the code at the failing input): an IPv6 address whose dial fails with a
`*net.OpError` that does not wrap an `*os.SyscallError` (a timeout) makes `Check` panic at
the unchecked type assertion: alone, and also between two healthy addresses, where the
second one is then never dialed. -/
theorem Check_panics_on_ipv6_timeout :
    (Check exampleHost (Resolution.answered [candV6Timeout])).outcome = Outcome.panicked ∧
    (Check exampleHost (Resolution.answered [candA, candV6Timeout, candB])).outcome
      = Outcome.panicked ∧
    dialed (Check exampleHost (Resolution.answered [candA, candV6Timeout, candB])).trace
      = [ipv4A, ipv6A] := by
  decide

/-- C3 (amended): whenever `lookupIPWithTimeout` returns an empty sequence, `Check` returns a
zero duration and its trace holds no dial; that is the case when the resolution timer fires
first, whatever the lookup would return, and in a real race it is the case only then. A name
that has no records makes `net.LookupIP` return an error, and when that error comes before
the timer the process exits through `log.Fatal` (no dial is made, and `Check` does not
return). -/
theorem Check_no_address :
    (∀ (host : String) (race : Resolution),
      (lookupIPWithTimeout host lookupTimeout race).1 = some [] →
      (Check host race).outcome = Outcome.returned 0 ∧
      dialed (Check host race).trace = [] ∧
      ∀ e ∈ (Check host race).trace, ∀ ip deadline, e ≠ Event.dial ip deadline) ∧
    (∀ (host : String) (lookup : Option (List Candidate)),
      (Check host (raceOf lookup true)).outcome = Outcome.returned 0 ∧
      dialed (Check host (raceOf lookup true)).trace = []) ∧
    (∀ (host : String) (records : List Candidate) (timerFirst : Bool),
      (lookupIPWithTimeout host lookupTimeout (raceOf (LookupIP records) timerFirst)).1 = some []
        ↔ timerFirst = true) ∧
    (∀ host : String, Check host (raceOf (LookupIP []) false) = ⟨Outcome.exited, []⟩) := by
  refine ⟨?_, ?_, ?_, ?_⟩
  · intro host race h
    cases race with
    | answered ips =>
      have hips : ips = [] := by simpa [lookupIPWithTimeout] using h
      subst hips
      simp [Check, lookupIPWithTimeout, checkLoop, dialed]
    | failed => simp [lookupIPWithTimeout] at h
    | timedOut => simp [Check, lookupIPWithTimeout, checkLoop, dialed]
  · intro host lookup
    simp [raceOf, Check, lookupIPWithTimeout, checkLoop, dialed]
  · intro host records timerFirst
    cases timerFirst <;> cases records <;> simp [raceOf, LookupIP, lookupIPWithTimeout]
  · intro host
    simp [raceOf, LookupIP, Check, lookupIPWithTimeout]

/-- C3 (the claim as stated fails): for a name that has no records whose lookup answers
before the timer, `Check` does not return a zero duration: the process exits. -/
theorem Check_no_records_exits :
    (Check exampleHost (raceOf (LookupIP []) false)).outcome = Outcome.exited ∧
    (Check exampleHost (raceOf (LookupIP []) false)).outcome ≠ Outcome.returned 0 := by
  decide

/-- C4: CA certificates never contribute. A duration returned by `Check` is zero or is
`NotAfter.Sub(now)` for a certificate with `IsCA` false in a chain of a successfully dialed
address; when every certificate of every chain is a CA certificate the result is zero; and
rewriting the `NotAfter` of the CA certificates in any way leaves the outcome unchanged. -/
theorem Check_ignores_CA :
    (∀ (host : String) (ips : List Candidate) (d : Duration),
      (Check host (Resolution.answered ips)).outcome = Outcome.returned d →
      d = 0 ∨ ∃ c ∈ ips, ∃ chains, c.dial = Except.ok chains ∧
        ∃ cert ∈ chains.flatten, cert.IsCA = false ∧ ∃ k, d = Time.Sub cert.NotAfter (c.now k)) ∧
    (∀ (host : String) (ips : List Candidate), (∀ c ∈ ips, dialPanics c = false) →
      (∀ c ∈ ips, ∀ chains, c.dial = Except.ok chains →
        ∀ cert ∈ chains.flatten, cert.IsCA = true) →
      (Check host (Resolution.answered ips)).outcome = Outcome.returned 0) ∧
    (∀ (host : String) (ips : List Candidate) (f : Certificate → Time),
      (Check host (Resolution.answered (ips.map (retimeCA f)))).outcome
        = (Check host (Resolution.answered ips)).outcome) := by
  refine ⟨?_, ?_, ?_⟩
  · intro host ips d h
    rw [Check_answered_outcome] at h
    by_cases hp : ips.any dialPanics = true
    · simp [hp] at h
    · simp only [hp, Bool.false_eq_true, if_false, Outcome.returned.injEq] at h
      unfold lastProcessed at h
      cases hl : (ips.flatMap observations).getLast? with
      | none => left; simpa [hl] using h.symm
      | some x =>
        right
        have hx : x = d := by simpa [hl] using h
        subst hx
        have hmem := List.mem_of_getLast?_eq_some hl
        obtain ⟨c, hc, hxc⟩ := List.mem_flatMap.1 hmem
        refine ⟨c, hc, ?_⟩
        unfold observations at hxc
        cases hd : c.dial with
        | error e => simp [hd] at hxc
        | ok chains =>
          simp only [hd, List.mem_map] at hxc
          obtain ⟨p, hp1, hp2⟩ := hxc
          have hcert : p.2 ∈ processedCerts chains := by
            have := List.mem_map_of_mem Prod.snd hp1
            rwa [List.enumFrom_map_snd] at this
          unfold processedCerts at hcert
          obtain ⟨hin, hca⟩ := List.mem_filter.1 hcert
          exact ⟨chains, rfl, p.2, mem_of_mem_dedupBySignature _ _ hin, by simpa using hca,
            p.1, hp2.symm⟩
  · intro host ips h hall
    rw [Check_answered_outcome, any_dialPanics_eq_false ips h]
    have hobs : ips.flatMap observations = [] := by
      rw [List.flatMap_eq_nil_iff]
      intro c hc
      unfold observations
      cases hd : c.dial with
      | error e => rfl
      | ok chains =>
        have : processedCerts chains = [] := by
          unfold processedCerts
          rw [List.filter_eq_nil_iff]
          intro cert hcert
          simp [hall c hc chains hd cert (mem_of_mem_dedupBySignature _ _ hcert)]
        simp [this]
    simp [lastProcessed, hobs]
  · intro host ips f
    rw [Check_answered_outcome, Check_answered_outcome]
    have h1 : (ips.map (retimeCA f)).any dialPanics = ips.any dialPanics := by
      rw [List.any_map]
      congr 1
      funext c
      exact retimeCA_dialPanics f c
    have h2 : lastProcessed (ips.map (retimeCA f)) = lastProcessed ips := by
      unfold lastProcessed
      rw [List.flatMap_map]
      congr 3
      funext c
      exact retimeCA_observations f c
    rw [h1, h2]

/-- C5: within one connection only the first certificate with a given signature is
processed. The chain walk of `Check` (from its initial state: nothing checked, the first
certificate reading next) ends in the same state as the walk of the single sequence obtained
by flattening the chains and removing every certificate whose signature equals that of an
earlier one; walking the chains followed by the same chains again ends in the same state as
walking them once, and so gives the same run of `Check`. The set of checked signatures
starts empty for each address: whatever the earlier addresses served, an address with at
least one processed certificate decides the result alone, and an address listed twice has
its leaf logged twice. -/
theorem Check_dedups_within_connection :
    (∀ (c : Candidate) (rv : Duration) (tr : List Event) (chains : List (List Certificate)),
      walkChains c ⟨[], rv, 1, tr⟩ chains
        = walkChains c ⟨[], rv, 1, tr⟩ [dedupBySignature chains.flatten]) ∧
    (∀ (c : Candidate) (rv : Duration) (tr : List Event) (chains : List (List Certificate)),
      walkChains c ⟨[], rv, 1, tr⟩ (chains ++ chains) = walkChains c ⟨[], rv, 1, tr⟩ chains) ∧
    (∀ (host : String) (pre post : List Candidate) (c : Candidate)
      (chains : List (List Certificate)), c.dial = Except.ok chains →
      Check host (Resolution.answered
          (pre ++ { c with dial := Except.ok (chains ++ chains) } :: post))
        = Check host (Resolution.answered (pre ++ c :: post))) ∧
    (∀ (host : String) (pre : List Candidate) (c : Candidate)
      (chains : List (List Certificate)), (∀ p ∈ pre, dialPanics p = false) →
      c.dial = Except.ok chains → processedCerts chains ≠ [] →
      (Check host (Resolution.answered (pre ++ [c]))).outcome
        = (Check host (Resolution.answered [c])).outcome) ∧
    ((Check exampleHost (Resolution.answered [candA, candA])).trace.filter
      (fun e => decide (e = Event.logValid ipv4A ("leaf") (t0 + 10 * Day) (10 * Day)))).length
      = 2 := by
  refine ⟨?_, ?_, ?_, ?_, by decide⟩
  · intro c rv tr chains
    rw [walkChains_eq_foldl, walkChains_eq_foldl, foldl_walkCert_freshFrom]
    simp [freshFrom_nil]
  · intro c rv tr chains
    exact walkChains_repeat c _ chains
  · intro host pre post c chains hd
    simp only [Check, lookupIPWithTimeout]
    apply checkLoop_append_congr
    intro rv tr
    rw [checkLoop, checkLoop]
    simp only [hd, walkChains_repeat]
    rw [walkChains_congr { c with dial := Except.ok (chains ++ chains) } c rfl rfl]
  · intro host pre c chains hpre hd hne
    have hc : dialPanics c = false := by simp [dialPanics, hd]
    have hobs : observations c ≠ [] := by
      simp only [observations, hd, ne_eq, List.map_eq_nil_iff]
      intro h
      apply hne
      have := congrArg List.length h
      simpa using this
    rw [Check_answered_outcome, Check_answered_outcome]
    have h1 : (pre ++ [c]).any dialPanics = false := by
      simp [List.any_append, any_dialPanics_eq_false pre hpre, hc]
    have h2 : [c].any dialPanics = false := by simp [hc]
    rw [h1, h2]
    simp only [Bool.false_eq_true, if_false, lastProcessed, List.flatMap_append,
      List.flatMap_cons, List.flatMap_nil, List.append_nil, getLast?_getD_append]
    cases hl : (observations c).getLast? with
    | none => exact absurd (List.getLast?_eq_none_iff.1 hl) hobs
    | some x => simp

/-- C6: an IPv6 address whose dial fails with no-route-to-host (a `*net.OpError` wrapping
an `*os.SyscallError` whose `Err` is `EHOSTUNREACH`) is skipped without affecting the
outcome: inserted at any position of any address list, it leaves the outcome of `Check`
unchanged, and its whole effect on the run is its dial and the log line of the ignored
address. -/
theorem Check_skips_unreachable_ipv6 (host : String) (pre post : List Candidate)
    (a : Candidate) (h4 : To4 a.ip = none)
    (hd : a.dial = Except.error (DialError.OpError (Cause.SyscallError EHOSTUNREACH))) :
    (Check host (Resolution.answered (pre ++ a :: post))).outcome
      = (Check host (Resolution.answered (pre ++ post))).outcome ∧
    ∀ (rv : Duration) (tr : List Event), checkLoop (a :: post) rv tr = checkLoop post rv
      (tr ++ [Event.dial a.ip (Time.Add (a.now 0) (connectionTimeout + 5 * Second))]
        ++ [Event.logUnreachable a.ip]) := by
  refine ⟨?_, fun rv tr => checkLoop_skip_unreachable a post rv tr h4 hd⟩
  have hp : dialPanics a = false := by simp [dialPanics, hd]
  have hobs : observations a = [] := by simp [observations, hd]
  rw [Check_answered_outcome, Check_answered_outcome]
  simp [lastProcessed, List.any_append, hp, hobs]

/-- C10: `Check` is a sequential fan-out that releases every connection. Reading the trace
of any call from the state with no connection open, every event respects the discipline of
`Conn.step` (a dial starts only when no connection is open or pending; a connection is
opened only by the pending dial; certificates are walked only on the open connection; that
connection is closed once, before the next dial), the trace never ends with a connection
open, and when `Check` returns none is open or pending and the dials are exactly those of
the resolved addresses, in resolver order. -/
theorem Check_sequential_and_releases (host : String) (race : Resolution) :
    ∃ s, scanFrom Conn.idle (Check host race).trace = some s ∧
      (∀ ip, s ≠ Conn.opened ip) ∧
      ∀ d, (Check host race).outcome = Outcome.returned d →
        s = Conn.idle ∧ ∀ ips, (lookupIPWithTimeout host lookupTimeout race).1 = some ips →
          dialed (Check host race).trace = ips.map (fun c => c.ip) := by
  cases race with
  | answered ips =>
    obtain ⟨s, hs, hm⟩ := checkLoop_trace ips 0 [] rfl
    refine ⟨s, by simpa [Check, lookupIPWithTimeout] using hs, ?_⟩
    simp only [Check, lookupIPWithTimeout]
    cases ho : (checkLoop ips 0 []).outcome with
    | returned d2 =>
      simp only [ho] at hm
      refine ⟨by simp [hm.1], fun d _ => ⟨hm.1, ?_⟩⟩
      intro ips2 h2
      have : ips = ips2 := by simpa using h2
      subst this
      simpa [dialed] using hm.2
    | panicked =>
      simp only [ho] at hm
      obtain ⟨ip, hip⟩ := hm
      exact ⟨by simp [hip], fun d hd => by simp at hd⟩
    | exited => simp [ho] at hm
  | failed =>
    exact ⟨Conn.idle, by simp [Check, lookupIPWithTimeout, scanFrom], by simp,
      by simp [Check, lookupIPWithTimeout]⟩
  | timedOut =>
    refine ⟨Conn.idle, by simp [Check, lookupIPWithTimeout, checkLoop, scanFrom, Conn.step],
      by simp, ?_⟩
    intro d _
    refine ⟨rfl, ?_⟩
    intro ips h
    have : ips = [] := by simpa [lookupIPWithTimeout] using h.symm
    subst this
    simp [Check, lookupIPWithTimeout, checkLoop, dialed]

/-! ## `float64`: rounding lemmas -/

namespace F64

theorem one_shiftLeft_eq (e : Nat) : 1 <<< e = 2 ^ e := Nat.one_shiftLeft e

/-- The unit count of `1.0` is a power of two; the exponent is kept as a variable in the
proofs below. -/
theorem unit_eq : ∃ e, e = 1074 ∧ unit = 2 ^ e := ⟨1074, rfl, one_shiftLeft_eq 1074⟩

theorem unit_pos : 0 < unit := by
  obtain ⟨e, _, h⟩ := unit_eq
  rw [h]
  exact Nat.two_pow_pos _

theorem log2Aux_le (fuel n b : Nat) (h : n < 2 ^ (b + 1)) : log2Aux fuel n ≤ b := by
  induction fuel generalizing n b with
  | zero => simp [log2Aux]
  | succ f ih =>
    unfold log2Aux
    split
    · exact Nat.zero_le _
    · rename_i h2
      cases b with
      | zero => omega
      | succ b2 =>
        have : n / 2 < 2 ^ (b2 + 1) := by
          apply Nat.div_lt_of_lt_mul
          rw [← Nat.pow_succ']
          exact h
        have := ih (n / 2) b2 this
        omega

theorem ilog2_le (n b : Nat) (h : n < 2 ^ (b + 1)) : ilog2 n ≤ b := log2Aux_le n n b h

theorem rne_mul (m q : Nat) (hq : 0 < q) : rne (m * q) q = m := by
  unfold rne
  rw [Nat.mul_mod_left, Nat.mul_div_cancel _ hq]
  simp [hq]

theorem rne_ge (p q m : Nat) (hq : 0 < q) (h : m * q ≤ p) : m ≤ rne p q := by
  have h1 : m ≤ p / q := (Nat.le_div_iff_mul_le hq).2 h
  unfold rne
  split
  · exact h1
  · split
    · omega
    · split <;> omega

theorem rne_lt (p q M : Nat) (hq : 0 < q) (h : p + q ≤ M * q) : rne p q < M := by
  have hdm := Nat.div_add_mod p q
  have h1 : p / q + 1 ≤ M := by
    have : (p / q + 1) * q ≤ M * q := by
      have := Nat.div_mul_le_self p q
      calc (p / q + 1) * q = p / q * q + q := by ring
        _ ≤ p + q := by omega
        _ ≤ M * q := h
    exact Nat.le_of_mul_le_mul_right this hq
  by_cases hr : p % q = 0
  · unfold rne
    simp [hr, hq]
    omega
  · have h2 : p / q + 1 < M := by
      have hlt : (p / q + 1) * q < M * q := by
        have hmod : q * (p / q) + p % q = p := hdm
        calc (p / q + 1) * q = q * (p / q) + q := by ring
          _ < p + q := by omega
          _ ≤ M * q := h
      exact Nat.lt_of_mul_lt_mul_right hlt
    unfold rne
    split
    · omega
    · split
      · omega
      · split <;> omega

theorem roundNat_eq (p q : Nat) :
    roundNat p q = rne p (q * 2 ^ (ilog2 (p / q) - 52)) * 2 ^ (ilog2 (p / q) - 52) := by
  unfold roundNat
  rw [Nat.shiftLeft_eq, Nat.shiftLeft_eq]

theorem roundNat_zero (q : Nat) (hq : 0 < q) : roundNat 0 q = 0 := by
  rw [roundNat_eq]
  have : ilog2 (0 / q) = 0 := by simp [ilog2, log2Aux]
  rw [this]
  simp [rne, hq]

/-- Integers below `2^53` are `float64` values. -/
theorem roundNat_mul_unit (n : Nat) (hn : n < 2 ^ 53) : roundNat (n * unit) 1 = n * unit := by
  rw [roundNat_eq, Nat.div_one, Nat.one_mul]
  obtain ⟨e, he, hue⟩ := unit_eq
  have hk : ilog2 (n * unit) - 52 ≤ e := by
    have : ilog2 (n * unit) ≤ 52 + e := by
      apply ilog2_le
      rw [hue]
      calc n * 2 ^ e < 2 ^ 53 * 2 ^ e :=
            Nat.mul_lt_mul_of_pos_right hn (Nat.two_pow_pos _)
        _ = 2 ^ (53 + e) := (Nat.pow_add 2 53 e).symm
        _ ≤ 2 ^ (52 + e + 1) := Nat.pow_le_pow_right (by norm_num) (by omega)
    omega
  generalize ilog2 (n * unit) - 52 = k at hk
  have hU : unit = 2 ^ (e - k) * 2 ^ k := by
    rw [hue, ← Nat.pow_add, Nat.sub_add_cancel hk]
  have : n * unit = (n * 2 ^ (e - k)) * 2 ^ k := by rw [hU, Nat.mul_assoc]
  rw [this, rne_mul _ _ (Nat.two_pow_pos _)]

/-- The quotient of a whole number of hours by 24 rounds to a `float64` with the same floor. -/
theorem roundNat_div24 (H : Nat) (hH : H < 2 ^ 48) :
    roundNat (H * unit * unit) (24 * unit) / unit = H / 24 := by
  have hU := unit_pos
  have hpq : H * unit * unit / (24 * unit) = H * unit / 24 := by
    rw [Nat.mul_div_mul_right _ _ hU]
  rw [roundNat_eq, hpq]
  obtain ⟨e, he, hue⟩ := unit_eq
  have hk : ilog2 (H * unit / 24) - 52 + 5 ≤ e := by
    have : ilog2 (H * unit / 24) ≤ 47 + e := by
      apply ilog2_le
      rw [hue]
      calc H * 2 ^ e / 24 ≤ H * 2 ^ e := Nat.div_le_self _ _
        _ < 2 ^ 48 * 2 ^ e := Nat.mul_lt_mul_of_pos_right hH (Nat.two_pow_pos _)
        _ = 2 ^ (48 + e) := (Nat.pow_add 2 48 e).symm
        _ ≤ 2 ^ (47 + e + 1) := Nat.pow_le_pow_right (by norm_num) (by omega)
    omega
  generalize ilog2 (H * unit / 24) - 52 = k at hk
  have hQ : 0 < 2 ^ k := Nat.two_pow_pos _
  have hUR : unit = 2 ^ (e - k) * 2 ^ k := by
    rw [hue, ← Nat.pow_add, Nat.sub_add_cancel (by omega)]
  have hR : 24 ≤ 2 ^ (e - k) := by
    calc 24 ≤ 2 ^ 5 := by norm_num
      _ ≤ 2 ^ (e - k) := Nat.pow_le_pow_right (by norm_num) (by omega)
  generalize 2 ^ (e - k) = R at hUR hR
  generalize 2 ^ k = Q at hUR hQ
  have hH24 := Nat.div_add_mod H 24
  have hr := Nat.mod_lt H (show 0 < 24 by norm_num)
  generalize H / 24 = a at hH24 ⊢
  generalize H % 24 = r at hH24 hr
  have hq : 0 < 24 * unit * Q := Nat.mul_pos (Nat.mul_pos (by norm_num) hU) hQ
  apply Nat.div_eq_of_lt_le
  · -- lower bound
    have h1 : a * R ≤ rne (H * unit * unit) (24 * unit * Q) := by
      apply rne_ge _ _ _ hq
      have : a * R * (24 * unit * Q) = (24 * a) * unit * (R * Q) := by ring
      rw [this, ← hUR]
      apply Nat.mul_le_mul_right
      apply Nat.mul_le_mul_right
      omega
    calc a * unit = a * R * Q := by rw [hUR]; ring
      _ ≤ _ := Nat.mul_le_mul_right _ h1
  · have h1 : rne (H * unit * unit) (24 * unit * Q) < (a + 1) * R := by
      apply rne_lt _ _ _ hq
      have e1 : (a + 1) * R * (24 * unit * Q) = (24 * a + 24) * unit * (R * Q) := by ring
      rw [e1, ← hUR, ← hH24]
      have e2 : 24 * unit * Q ≤ unit * unit := by
        calc 24 * unit * Q = unit * (24 * Q) := by ring
          _ ≤ unit * (R * Q) := Nat.mul_le_mul_left _ (Nat.mul_le_mul_right _ hR)
          _ = unit * unit := by rw [← hUR]
      have e3 : (24 * a + r) * unit * unit + unit * unit ≤ (24 * a + 24) * unit * unit := by
        have : (24 * a + r) * unit * unit + unit * unit = (24 * a + r + 1) * unit * unit := by ring
        rw [this]
        apply Nat.mul_le_mul_right
        apply Nat.mul_le_mul_right
        omega
      omega
    calc _ < (a + 1) * R * Q := Nat.mul_lt_mul_of_pos_right h1 hQ
      _ = (a + 1) * unit := by rw [hUR]; ring

theorem round_natCast (p q : Nat) : round (p : Int) q = (roundNat p q : Int) := by
  unfold round
  rw [if_neg (by exact not_lt.2 (Int.ofNat_nonneg p)), Int.natAbs_ofNat]

theorem ofInt_natCast (n : Nat) (hn : n < 2 ^ 53) : ofInt (n : Int) = (n : Int) * (unit : Int) := by
  unfold ofInt
  rw [← Int.natCast_mul, round_natCast, roundNat_mul_unit n hn]

theorem ofInt_zero : ofInt 0 = 0 := by
  have := ofInt_natCast 0 (by norm_num)
  simpa using this

theorem add_zero_right (n : Nat) (hn : n < 2 ^ 53) :
    add ((n : Int) * (unit : Int)) 0 = (n : Int) * (unit : Int) := by
  unfold add
  rw [Int.add_zero, ← Int.natCast_mul, round_natCast, roundNat_mul_unit n hn]

theorem div_zero_left (c : Nat) (hc : 0 < c) : div 0 ((c : Int) * (unit : Int)) = 0 := by
  unfold div
  rw [← Int.natCast_mul, if_neg (by exact not_lt.2 (Int.ofNat_nonneg _)), Int.natAbs_ofNat,
    Int.zero_mul]
  have h := round_natCast 0 (c * unit)
  rw [roundNat_zero _ (Nat.mul_pos hc unit_pos)] at h
  simpa using h

theorem mul_zero_left (b : F64) : mul 0 b = 0 := by
  unfold mul
  rw [Int.zero_mul]
  have h := round_natCast 0 unit
  rw [roundNat_zero _ unit_pos] at h
  simpa using h

theorem Floor_div24 (H : Nat) (hH : H < 2 ^ 48) :
    Floor (div ((H : Int) * (unit : Int)) ((24 : Int) * (unit : Int)))
      = ((H / 24 : Nat) : Int) * (unit : Int) := by
  have h24 : ((24 : Int) * (unit : Int)) = ((24 * unit : Nat) : Int) := by push_cast; rfl
  unfold div Floor
  rw [h24, if_neg (by exact not_lt.2 (Int.ofNat_nonneg _)), Int.natAbs_ofNat,
    ← Int.natCast_mul, ← Int.natCast_mul, round_natCast, ← Int.natCast_div,
    roundNat_div24 H hH]

theorem Mod_24 (H : Nat) :
    Mod ((H : Int) * (unit : Int)) ((24 : Int) * (unit : Int))
      = ((H % 24 : Nat) : Int) * (unit : Int) := by
  have h24 : ((24 : Int) * (unit : Int)) = ((24 * unit : Nat) : Int) := by push_cast; rfl
  unfold Mod
  rw [h24, ← Int.natCast_mul, ← Int.ofNat_tmod, Nat.mul_mod_mul_right, Int.natCast_mul]

theorem Modf_whole (n : Nat) :
    Modf ((n : Int) * (unit : Int)) = ((n : Int) * (unit : Int), 0) := by
  have hU : (unit : Int) ≠ 0 := by exact_mod_cast (Nat.pos_iff_ne_zero.1 unit_pos)
  unfold Modf
  rw [Int.mul_tdiv_cancel _ hU, Int.mul_tmod_left]

theorem Modf_zero : Modf 0 = (0, 0) := by
  have := Modf_whole 0
  simpa using this

theorem fmt0_whole (n : Nat) : fmt0 ((n : Int) * (unit : Int)) = toString n := by
  unfold fmt0
  rw [← Int.natCast_mul, if_neg (by exact not_lt.2 (Int.ofNat_nonneg _)), Int.natAbs_ofNat,
    rne_mul _ _ unit_pos]

theorem whole_pos_iff (n : Nat) : (n : Int) * (unit : Int) > 0 ↔ n ≠ 0 := by
  have hU : (0 : Int) < (unit : Int) := by exact_mod_cast unit_pos
  constructor
  · intro h hn
    subst hn
    simp at h
  · intro h
    have : (0 : Int) < (n : Int) := by exact_mod_cast Nat.pos_of_ne_zero h
    exact Int.mul_pos this hU

end F64

/-! ## `formatDuration`: the claims -/

theorem Hours_whole (H : Nat) (hH : H < 2 ^ 53) :
    Hours ((H : Int) * Hour) = (H : Int) * (F64.unit : Int) := by
  have hHour : Hour ≠ 0 := by decide
  have hc : F64.ofInt (60 * 60 * 1000000000)
      = ((3600000000000 : Nat) : Int) * (F64.unit : Int) := by
    have := F64.ofInt_natCast 3600000000000 (by norm_num)
    exact_mod_cast this
  unfold Hours
  rw [Int.mul_tdiv_cancel _ hHour, Int.mul_tmod_left, F64.ofInt_zero, hc,
    F64.div_zero_left _ (by norm_num), F64.ofInt_natCast H hH, F64.add_zero_right H hH]

theorem formatDuration_of_hours (H : Nat) (h : (H : Int) * Hour ≤ maxDuration) :
    formatDuration ((H : Int) * Hour) =
      (if H / 24 = 0 then "" else toString (H / 24) ++ "d") ++ " " ++
      (if H % 24 = 0 then "" else toString (H % 24) ++ "h") ++ " " ++ "" ++ " " ++ "" := by
  have hH : H < 2 ^ 48 := by
    unfold Hour maxDuration at h
    have : (H : Int) < 2 ^ 48 := by
      have e : (2 : Int) ^ 48 = 281474976710656 := by norm_num
      rw [e]
      omega
    exact_mod_cast this
  have hH53 : H < 2 ^ 53 := lt_of_lt_of_le hH (Nat.pow_le_pow_right (by norm_num) (by norm_num))
  have h24 : F64.ofInt 24 = (24 : Int) * (F64.unit : Int) := by
    have := F64.ofInt_natCast 24 (by norm_num)
    exact_mod_cast this
  unfold formatDuration
  simp only [Hours_whole H hH53, h24, F64.Floor_div24 H hH, F64.Mod_24, F64.Modf_whole,
    F64.mul_zero_left, F64.Modf_zero, F64.fmt0_whole, F64.whole_pos_iff, gt_iff_lt,
    lt_self_iff_false, if_false, ite_not]

/-- C7 (the code at the failing input): for 45 seconds `formatDuration` prints `1m` in the
minute slot, where the whole minutes of the remainder are 0: the fractional minute count
0.75 is printed with `%.f`, which rounds to nearest. In the same way 3599 seconds show
`60m`, and one nanosecond under 200 days shows `200d` with every other slot empty. -/
theorem formatDuration_rounds_minutes :
    formatDuration (45 * Second) = "  1m 45s" ∧
    formatDuration (3599 * Second) = "  60m 59s" ∧
    formatDuration (200 * Day - 1) = "200d   " := by
  refine ⟨by decide, by decide, by decide⟩

/-- C8 (the code at the failing input): for 20 seconds the minute component is zero and
`formatDuration` still renders it, as `0m`; for one nanosecond it renders `0m` and `0s`. -/
theorem formatDuration_renders_zero_minutes :
    formatDuration (20 * Second) = "  0m 20s" ∧
    formatDuration 1 = "  0m 0s" := by
  refine ⟨by decide, by decide⟩

/-- C9: for a duration of a whole number `H` of hours (within the range of a `Duration`),
`formatDuration` returns four slots joined by three single spaces: the decimal of `H / 24`
followed by `d` (empty when it is 0), the decimal of `H % 24` followed by `h` (empty when
it is 0), an empty minute slot and an empty second slot. So 90000 seconds give `1d 1h` and
two spaces, and a zero duration gives three spaces. -/
theorem formatDuration_whole_hours (H : Nat) (h : (H : Int) * Hour ≤ maxDuration) :
    formatDuration ((H : Int) * Hour) =
      (if H / 24 = 0 then "" else toString (H / 24) ++ "d") ++ " " ++
      (if H % 24 = 0 then "" else toString (H % 24) ++ "h") ++ " " ++ "" ++ " " ++ "" ∧
    formatDuration (90000 * Second) = "1d 1h  " ∧
    formatDuration 0 = "   " :=
  ⟨formatDuration_of_hours H h, by decide, by decide⟩

/-! ## Witnesses -/

theorem Check_last_processed_wins_witness :
    (∀ c ∈ [candA, candV6Unreachable, candV4Refused, candTwoChains], dialPanics c = false) ∧
    (Check exampleHost (Resolution.answered
      [candA, candV6Unreachable, candV4Refused, candTwoChains])).outcome
      = Outcome.returned (lastProcessed [candA, candV6Unreachable, candV4Refused, candTwoChains]) :=
  ⟨by decide, Check_last_processed_wins.1 exampleHost _ (by decide)⟩

theorem Check_no_address_witness :
    (lookupIPWithTimeout exampleHost lookupTimeout Resolution.timedOut).1 = some [] ∧
    (Check exampleHost Resolution.timedOut).outcome = Outcome.returned 0 ∧
    dialed (Check exampleHost Resolution.timedOut).trace = [] :=
  ⟨rfl, (Check_no_address.1 exampleHost Resolution.timedOut rfl).1,
    (Check_no_address.1 exampleHost Resolution.timedOut rfl).2.1⟩

theorem Check_ignores_CA_witness :
    (∀ c ∈ [candOnlyCA, candV4Refused], dialPanics c = false) ∧
    (Check exampleHost (Resolution.answered [candOnlyCA, candV4Refused])).outcome
      = Outcome.returned 0 := by
  refine ⟨by decide, Check_ignores_CA.2.1 exampleHost _ (by decide) ?_⟩
  intro c hc chains hd cert hcert
  simp only [List.mem_cons, List.mem_singleton, List.not_mem_nil, or_false] at hc
  rcases hc with hc | hc
  · subst hc
    have : chains = [[ca 8 (t0 + 900 * Day), ca 9 (t0 + 3650 * Day)]] := by
      simpa [candOnlyCA] using hd.symm
    subst this
    simp only [List.flatten_cons, List.flatten_nil, List.append_nil, List.mem_cons,
      List.mem_singleton, List.not_mem_nil, or_false] at hcert
    rcases hcert with h | h <;> subst h <;> rfl
  · subst hc
    simp [candV4Refused] at hd

theorem Check_dedups_within_connection_witness :
    (∀ p ∈ [candTwoChains, candA], dialPanics p = false) ∧
    processedCerts [[leaf 1 (t0 + 10 * Day), ca 9 (t0 + 3650 * Day)]] ≠ [] ∧
    (Check exampleHost (Resolution.answered ([candTwoChains, candA] ++ [candA]))).outcome
      = (Check exampleHost (Resolution.answered [candA])).outcome :=
  ⟨by decide, by decide,
    Check_dedups_within_connection.2.2.2.1 exampleHost [candTwoChains, candA] candA
      [[leaf 1 (t0 + 10 * Day), ca 9 (t0 + 3650 * Day)]] (by decide) rfl (by decide)⟩

theorem Check_skips_unreachable_ipv6_witness :
    To4 candV6Unreachable.ip = none ∧
    (Check exampleHost (Resolution.answered
      ([candA] ++ candV6Unreachable :: [candTwoChains]))).outcome
      = (Check exampleHost (Resolution.answered ([candA] ++ [candTwoChains]))).outcome :=
  ⟨by decide, (Check_skips_unreachable_ipv6 exampleHost [candA] [candTwoChains]
    candV6Unreachable (by decide) rfl).1⟩

theorem Check_sequential_and_releases_witness :
    ∃ s, scanFrom Conn.idle (Check exampleHost
        (Resolution.answered [candA, candV6Unreachable, candTwoChains])).trace = some s ∧
      (∀ ip, s ≠ Conn.opened ip) ∧
      ∀ d, (Check exampleHost
          (Resolution.answered [candA, candV6Unreachable, candTwoChains])).outcome
          = Outcome.returned d →
        s = Conn.idle ∧ ∀ ips, (lookupIPWithTimeout exampleHost lookupTimeout
            (Resolution.answered [candA, candV6Unreachable, candTwoChains])).1 = some ips →
          dialed (Check exampleHost
            (Resolution.answered [candA, candV6Unreachable, candTwoChains])).trace
            = ips.map (fun c => c.ip) :=
  Check_sequential_and_releases exampleHost
    (Resolution.answered [candA, candV6Unreachable, candTwoChains])

theorem formatDuration_whole_hours_witness :
    ((25 : Nat) : Int) * Hour ≤ maxDuration ∧
    formatDuration (((25 : Nat) : Int) * Hour) =
      (if 25 / 24 = 0 then "" else toString (25 / 24) ++ "d") ++ " " ++
      (if 25 % 24 = 0 then "" else toString (25 % 24) ++ "h") ++ " " ++ "" ++ " " ++ "" :=
  ⟨by decide, (formatDuration_whole_hours 25 (by decide)).1⟩

end SSLCheck
